import Mathlib

/-!
Verification development for the BasicTDL repository (a UDP-broadcast
peer-discovery node).  The definitions below are a shallow embedding of the
C++ sources:

* `TdlMessages.h`    — message structs (`MessageHeader`, `PositionReport`,
  `HeartbeatMessage`, `TextMessage`) and `NodeInfo`.
* `NodeManager.cpp`  — the peer registry (`updateNodePosition`,
  `updateLastHeardTime`, `pruneTimeouts`, `getNodeList`).
* `NetworkManager.cpp` — `sendBroadcast` and `receive`, modelled as functions
  of the outcome of the underlying socket call.
* `main.cpp`         — the body of one iteration of `receiverThreadFunc`
  applied to one received packet (`processPacket`).

Machine integers are modelled as `Nat` bit patterns: `uint32_t` values are
naturals below `2^32`, and the three `double` fields of a position report are
carried as their 64-bit bit patterns (naturals below `2^64`) — the program
never computes with them on the receive path, it only copies bytes, so the
bit pattern is the faithful notion of value.  Timestamps are
`std::chrono::steady_clock::time_point`s, modelled as `Nat` nanosecond ticks
(the MSVC `steady_clock` has nanosecond resolution); `steady_clock` is
monotonic, which appears below as explicit hypotheses on the `now`
arguments.  Byte buffers are `List Nat` with each element below 256, laid
out little-endian as on the x86 targets this Windows program compiles for.
-/

set_option autoImplicit false
set_option linter.unusedVariables false

namespace BasicTDL

/-! ### Wire bytes: little-endian fixed-width integers -/

/-- Serialize the low `k` bytes of `n`, little-endian (the in-memory layout
of a `k`-byte unsigned integer on the program's x86 target). -/
def natToBytesLE : Nat → Nat → List Nat
  | 0, _ => []
  | k + 1, n => n % 256 :: natToBytesLE k (n / 256)

/-- Read a little-endian byte list back as a natural number. -/
def bytesToNatLE : List Nat → Nat
  | [] => 0
  | b :: bs => b + 256 * bytesToNatLE bs

theorem natToBytesLE_length (k n : Nat) : (natToBytesLE k n).length = k := by
  induction k generalizing n with
  | zero => rfl
  | succ k ih => simp [natToBytesLE, ih]

theorem bytesToNatLE_natToBytesLE (k n : Nat) :
    bytesToNatLE (natToBytesLE k n) = n % 256 ^ k := by
  induction k generalizing n with
  | zero => simp [natToBytesLE, bytesToNatLE, Nat.mod_one]
  | succ k ih =>
      rw [natToBytesLE, bytesToNatLE, ih, pow_succ, mul_comm (256 ^ k) 256,
        Nat.mod_mul]

/-! ### `TdlMessages.h`: message structures -/

/-- enum `MessageType`: `POSITION_REPORT_TYPE = 1`. -/
def POSITION_REPORT_TYPE : Nat := 1

/-- enum `MessageType`: `HEARTBEAT_TYPE = 2`. -/
def HEARTBEAT_TYPE : Nat := 2

/-- enum `MessageType`: `TEXT_MESSAGE_TYPE = 3`. -/
def TEXT_MESSAGE_TYPE : Nat := 3

/-- struct `MessageHeader`: two 32-bit fields, `messageType` then
`sourceNodeId`. -/
structure MessageHeader where
  messageType : Nat
  sourceNodeId : Nat
deriving DecidableEq, Repr

/-- struct `PositionReport`: the header followed by three `double` fields.
The doubles are carried as their 64-bit bit patterns. -/
structure PositionReport where
  header : MessageHeader
  latitude : Nat
  longitude : Nat
  altitude : Nat
deriving DecidableEq, Repr

/-- `sizeof(MessageHeader)` on the program's target: two 4-byte fields, no
padding. -/
def sizeofMessageHeader : Nat := 8

/-- `sizeof(PositionReport)`: 8-byte header, then three 8-byte doubles at
offsets 8, 16, 24 (the header is already 8-aligned, no padding). -/
def sizeofPositionReport : Nat := 32

/-- `sizeof(HeartbeatMessage)`: the header only. -/
def sizeofHeartbeatMessage : Nat := 8

/-- `sizeof(TextMessage)`: the header plus `char text[64]`. -/
def sizeofTextMessage : Nat := 72

/-- struct `NodeInfo`: a registry entry — the peer's id, the last
`PositionReport` received from it, and the `steady_clock` time (nanosecond
ticks) at which any message from it was last received. -/
structure NodeInfo where
  nodeId : Nat
  lastPosition : PositionReport
  lastHeardTime : Nat
deriving DecidableEq, Repr

/-- The `lastPosition` value installed by the `NodeInfo(id, time)`
constructor: a default-constructed `PositionReport` (type tag
`POSITION_REPORT_TYPE`, coordinates all zero) with `sourceNodeId` set to
`id`.  An all-zero coordinate triple is the "position unknown" sentinel. -/
def initialPosition (id : Nat) : PositionReport :=
  { header := { messageType := POSITION_REPORT_TYPE, sourceNodeId := id }
  , latitude := 0, longitude := 0, altitude := 0 }

/-- The `NodeInfo(id, time)` constructor used when the registry first hears
from a peer. -/
def mkNodeInfo (id time : Nat) : NodeInfo :=
  { nodeId := id, lastPosition := initialPosition id, lastHeardTime := time }

/-! ### The registry map

`NodeManager::m_nodeMap` is a `std::map<uint32_t, NodeInfo>`: a finite map
with unique keys.  We model it as an association list; `mapFind`,
`mapInsert` (the effect of `m_nodeMap[k] = v`, i.e. insert-or-assign) and
`mapErase` are the three primitive accesses the manager performs.  No claim
depends on iteration order, so the list order (insertion order here, key
order in `std::map`) is irrelevant; key uniqueness, which claims do depend
on, is the predicate `WFkeys` below and is preserved by all operations. -/

/-- The registry: `std::map<uint32_t, NodeInfo>` as an association list. -/
abbrev Registry := List (Nat × NodeInfo)

/-- `m_nodeMap.find(i)`. -/
def mapFind : Registry → Nat → Option NodeInfo
  | [], _ => none
  | (k, v) :: rest, i => if i = k then some v else mapFind rest i

/-- `m_nodeMap[k] = v`: replace the entry for `k` if present, append a new
entry otherwise. -/
def mapInsert : Registry → Nat → NodeInfo → Registry
  | [], k, v => [(k, v)]
  | (k', v') :: rest, k, v =>
      if k = k' then (k, v) :: rest else (k', v') :: mapInsert rest k v

/-- `m_nodeMap.erase(k)`. -/
def mapErase (m : Registry) (k : Nat) : Registry :=
  m.filter (fun p => !(p.1 == k))

/-- Key uniqueness, the invariant `std::map` provides by construction. -/
def WFkeys (m : Registry) : Prop := (m.map Prod.fst).Nodup

instance (m : Registry) : Decidable (WFkeys m) := by
  unfold WFkeys; infer_instance

/-! ### `NodeManager.cpp`: the registry operations

Each member function takes the manager's `m_selfNodeId` as the explicit
`selfId` parameter, the current map, and the value `std::chrono::steady_clock::now()`
it reads, and returns the new map. -/

/-- `NodeManager::updateNodePosition(report)`: ignore our own id; otherwise
insert a fresh entry built from the report, or update the found entry's
position and last-heard time in place. -/
def updateNodePosition (selfId : Nat) (m : Registry) (report : PositionReport)
    (now : Nat) : Registry :=
  if report.header.sourceNodeId = selfId then m
  else
    match mapFind m report.header.sourceNodeId with
    | none =>
        let newNodeInfo :=
          { mkNodeInfo report.header.sourceNodeId now with lastPosition := report }
        mapInsert m report.header.sourceNodeId newNodeInfo
    | some info =>
        mapInsert m report.header.sourceNodeId
          { info with lastPosition := report, lastHeardTime := now }

/-- `NodeManager::updateLastHeardTime(nodeId)`: ignore our own id; refresh
the found entry's `lastHeardTime`, or create a minimal entry (default
position) if the peer is unknown. -/
def updateLastHeardTime (selfId : Nat) (m : Registry) (nodeId now : Nat) :
    Registry :=
  if nodeId = selfId then m
  else
    match mapFind m nodeId with
    | some info => mapInsert m nodeId { info with lastHeardTime := now }
    | none => mapInsert m nodeId (mkNodeInfo nodeId now)

/-- `steady_clock` ticks per second: the MSVC `steady_clock` counts
nanoseconds. -/
def nsPerSec : Nat := 1000000000

/-- `duration_cast<std::chrono::seconds>(now - lastHeard)`: whole elapsed
seconds, truncated. -/
def elapsedSeconds (now lastHeard : Nat) : Nat := (now - lastHeard) / nsPerSec

/-- `NodeManager::pruneTimeouts(timeoutDuration)`: first collect into
`nodesToRemove` every key whose truncated elapsed seconds exceed the
timeout, then erase those keys one by one. -/
def pruneTimeouts (m : Registry) (timeoutSec now : Nat) : Registry :=
  let nodesToRemove :=
    (m.filter
      (fun p => decide (timeoutSec < elapsedSeconds now p.2.lastHeardTime))).map
      Prod.fst
  nodesToRemove.foldl mapErase m

/-- `NodeManager::getNodeList()`: copy every `NodeInfo` out of the map. -/
def getNodeList (m : Registry) : List NodeInfo := m.map Prod.snd

/-! ### Wire encoding of a position report

The sender loop transmits the raw in-memory bytes of the `PositionReport`
struct (`sendBroadcast(&myPosReport, sizeof(myPosReport))`).  On the x86
target there is no padding: `messageType` at offset 0, `sourceNodeId` at 4,
and the three doubles at 8, 16, 24, all little-endian. -/

/-- The raw bytes of a `MessageHeader`. -/
def encodeHeader (h : MessageHeader) : List Nat :=
  natToBytesLE 4 h.messageType ++ natToBytesLE 4 h.sourceNodeId

/-- The raw bytes of a `PositionReport`, as produced by the sender loop. -/
def encodePositionReport (r : PositionReport) : List Nat :=
  encodeHeader r.header ++ natToBytesLE 8 r.latitude ++
    natToBytesLE 8 r.longitude ++ natToBytesLE 8 r.altitude

/-- Read the 32-bit field at byte offset `off` of a packet. -/
def decodeU32At (data : List Nat) (off : Nat) : Nat :=
  bytesToNatLE ((data.drop off).take 4)

/-- Read the 64-bit field at byte offset `off` of a packet. -/
def decodeU64At (data : List Nat) (off : Nat) : Nat :=
  bytesToNatLE ((data.drop off).take 8)

/-- The effect of `memcpy(&receivedReport, packet.data.data(),
sizeof(PositionReport))`: reinterpret the packet bytes as the struct's
fields. -/
def decodePositionReport (data : List Nat) : PositionReport :=
  { header := { messageType := decodeU32At data 0
              , sourceNodeId := decodeU32At data 4 }
  , latitude := decodeU64At data 8
  , longitude := decodeU64At data 16
  , altitude := decodeU64At data 24 }

/-- The receiver's decode path for a position report in isolation: the
minimum-header-size check, then the exact-size check, then the byte copy
(`receiverThreadFunc`, the `POSITION_REPORT_TYPE` case). -/
def receiverDecodePositionReport (data : List Nat) : Option PositionReport :=
  if data.length < sizeofMessageHeader then none
  else if data.length = sizeofPositionReport then some (decodePositionReport data)
  else none

/-! ### `main.cpp`: one receiver-loop iteration on one packet

`processPacket` is the body of the `while` loop of `receiverThreadFunc`
after `receive()` has produced a packet, restricted to its effect on the
registry (console output is dropped).  `nowTouch` and `nowPos` are the two
`steady_clock::now()` values read inside `updateLastHeardTime` and
`updateNodePosition` respectively (`nowTouch ≤ nowPos` in a real run). -/

/-- The expected total size the receiver checks against for each recognized
message type. -/
def expectedSize (msgType : Nat) : Nat :=
  if msgType = POSITION_REPORT_TYPE then sizeofPositionReport
  else if msgType = HEARTBEAT_TYPE then sizeofHeartbeatMessage
  else if msgType = TEXT_MESSAGE_TYPE then sizeofTextMessage
  else 0

/-- One iteration of `receiverThreadFunc` on a received packet `data`:
undersized packets are discarded; packets from `selfId` are discarded;
otherwise `updateLastHeardTime` runs for every packet, and then the
type dispatch runs `updateNodePosition` only for an exact-size position
report.  The heartbeat and text branches, and the size-mismatch and
unknown-type branches, touch only the console, not the registry. -/
def processPacket (selfId : Nat) (m : Registry) (data : List Nat)
    (nowTouch nowPos : Nat) : Registry :=
  if data.length < sizeofMessageHeader then m
  else
    let msgType := decodeU32At data 0
    let srcId := decodeU32At data 4
    if srcId = selfId then m
    else
      let m1 := updateLastHeardTime selfId m srcId nowTouch
      if msgType = POSITION_REPORT_TYPE then
        if data.length = sizeofPositionReport then
          updateNodePosition selfId m1 (decodePositionReport data) nowPos
        else m1
      else if msgType = HEARTBEAT_TYPE then
        m1
      else if msgType = TEXT_MESSAGE_TYPE then
        m1
      else
        m1

/-! ### `NetworkManager.cpp`: transport calls

The socket calls themselves are outside the program; `sendBroadcast` and
`receive` are modelled as functions of the outcome the OS reports for the
underlying `sendto`/`recvfrom` call, which is exactly the part of their
behaviour the code determines. -/

/-- Winsock error code `WSAETIMEDOUT`. -/
def WSAETIMEDOUT : Nat := 10060

/-- Winsock error code `WSAECONNRESET`. -/
def WSAECONNRESET : Nat := 10054

/-- Outcome of the underlying `sendto` call: either `SOCKET_ERROR` with a
Winsock error code, or success with the number of bytes actually sent. -/
inductive SendOutcome
  | sent (bytesSent : Nat)
  | sockError (code : Nat)
deriving DecidableEq, Repr

/-- `NetworkManager::sendBroadcast(data, size)`.  `initialized` is
`m_initialized`, `sendSocketValid` is `m_sendSocket != INVALID_SOCKET`;
`size` is the requested byte count.  Returns `false` when uninitialized or
when `sendto` reports an error; returns `true` otherwise — including when
`bytesSent != size`, where the code only logs a warning. -/
def sendBroadcast (initialized sendSocketValid : Bool) (size : Nat)
    (outcome : SendOutcome) : Bool :=
  if !initialized || !sendSocketValid then false
  else
    match outcome with
    | .sockError _ => false
    | .sent _ =>
        -- a `bytesSent != size` mismatch only logs a warning; the code
        -- comments "Return true anyway" and falls through to `return true`
        true

/-- Outcome of the underlying `recvfrom` call: either `SOCKET_ERROR` with a
Winsock error code (`WSAETIMEDOUT` when nothing arrived within the
configured timeout), or success with the received bytes. -/
inductive RecvOutcome
  | received (data : List Nat)
  | sockError (code : Nat)
deriving DecidableEq, Repr

/-- `NetworkManager::receive()`, modelled on its result: `none` when
uninitialized, on every `recvfrom` error (timeout, connection reset, and
any other code), and on a zero-byte datagram; otherwise the received
bytes. -/
def NetworkManager.receive (initialized recvSocketValid : Bool)
    (outcome : RecvOutcome) : Option (List Nat) :=
  if !initialized || !recvSocketValid then none
  else
    match outcome with
    | .sockError _ => none
    | .received data => if data.length = 0 then none else some data

/-! ### Basic facts about the map primitives -/

theorem mapFind_mapInsert_self (m : Registry) (k : Nat) (v : NodeInfo) :
    mapFind (mapInsert m k v) k = some v := by
  induction m with
  | nil => simp [mapInsert, mapFind]
  | cons p rest ih =>
      obtain ⟨k', v'⟩ := p
      by_cases h : k = k'
      · simp [mapInsert, h, mapFind]
      · simp [mapInsert, h, mapFind, ih]

theorem mapFind_mapInsert_ne (m : Registry) (k : Nat) (v : NodeInfo) (i : Nat)
    (h : i ≠ k) : mapFind (mapInsert m k v) i = mapFind m i := by
  induction m with
  | nil => simp [mapInsert, mapFind, h]
  | cons p rest ih =>
      obtain ⟨k', v'⟩ := p
      by_cases hk : k = k'
      · subst hk
        simp [mapInsert, mapFind, h]
      · simp [mapInsert, hk, mapFind, ih]

theorem mem_mapInsert {m : Registry} {k : Nat} {v : NodeInfo} {p : Nat × NodeInfo}
    (h : p ∈ mapInsert m k v) : p = (k, v) ∨ p ∈ m := by
  induction m with
  | nil =>
      simp [mapInsert] at h
      exact Or.inl h
  | cons q rest ih =>
      obtain ⟨k', v'⟩ := q
      unfold mapInsert at h
      by_cases hk : k = k'
      · rw [if_pos hk] at h
        rcases List.mem_cons.mp h with h | h
        · exact Or.inl h
        · exact Or.inr (List.mem_cons_of_mem _ h)
      · rw [if_neg hk] at h
        rcases List.mem_cons.mp h with h | h
        · exact Or.inr (by simp [h])
        · rcases ih h with h | h
          · exact Or.inl h
          · exact Or.inr (List.mem_cons_of_mem _ h)

theorem mem_mapErase {m : Registry} {k : Nat} {p : Nat × NodeInfo} :
    p ∈ mapErase m k ↔ p ∈ m ∧ p.1 ≠ k := by
  simp [mapErase, List.mem_filter]

theorem foldl_mapErase_eq_filter (ks : List Nat) (m : Registry) :
    ks.foldl mapErase m = m.filter (fun p => !(ks.contains p.1)) := by
  induction ks generalizing m with
  | nil => simp
  | cons k ks ih =>
      rw [List.foldl_cons, ih, mapErase, List.filter_filter]
      apply List.filter_congr
      intro p hp
      simp only [List.contains_cons, Bool.not_or, Bool.and_comm]

theorem mapFind_some_mem {m : Registry} {i : Nat} {v : NodeInfo}
    (h : mapFind m i = some v) : (i, v) ∈ m := by
  induction m with
  | nil => simp [mapFind] at h
  | cons p rest ih =>
      obtain ⟨k, w⟩ := p
      unfold mapFind at h
      by_cases hk : i = k
      · rw [if_pos hk] at h
        injection h with h
        subst hk
        subst h
        exact List.mem_cons_self _ _
      · rw [if_neg hk] at h
        exact List.mem_cons_of_mem _ (ih h)

theorem WFkeys_eq_of_mem {m : Registry} (hwf : WFkeys m) {p q : Nat × NodeInfo}
    (hp : p ∈ m) (hq : q ∈ m) (h : p.1 = q.1) : p = q :=
  List.inj_on_of_nodup_map hwf hp hq h

theorem mem_keys_mapInsert {m : Registry} {k j : Nat} {v : NodeInfo}
    (h : j ∈ (mapInsert m k v).map Prod.fst) : j = k ∨ j ∈ m.map Prod.fst := by
  simp only [List.mem_map] at h ⊢
  obtain ⟨p, hp, rfl⟩ := h
  rcases mem_mapInsert hp with h | h
  · left; rw [h]
  · right; exact ⟨p, h, rfl⟩

theorem WFkeys_mapInsert {m : Registry} (hwf : WFkeys m) (k : Nat) (v : NodeInfo) :
    WFkeys (mapInsert m k v) := by
  induction m with
  | nil => simp [mapInsert, WFkeys]
  | cons p rest ih =>
      obtain ⟨k', v'⟩ := p
      rw [WFkeys, List.map_cons, List.nodup_cons] at hwf
      obtain ⟨hk', hwf'⟩ := hwf
      unfold mapInsert
      by_cases hk : k = k'
      · subst hk
        rw [if_pos rfl, WFkeys, List.map_cons, List.nodup_cons]
        exact ⟨hk', hwf'⟩
      · rw [if_neg hk, WFkeys, List.map_cons, List.nodup_cons]
        refine ⟨fun hmem => ?_, ih hwf'⟩
        rcases mem_keys_mapInsert hmem with h | h
        · exact hk h.symm
        · exact hk' h

/-! ### Registry well-formedness and its preservation -/

/-- Full registry well-formedness: unique keys, and every entry's stored
`nodeId` equals its key.  Both hold of `m_nodeMap` throughout a run: the
map's keys are unique by construction, and every insertion in
`NodeManager.cpp` stores a `NodeInfo` built for exactly that key. -/
def RegWF (m : Registry) : Prop :=
  WFkeys m ∧ ∀ p ∈ m, (p : Nat × NodeInfo).2.nodeId = p.1

instance (m : Registry) : Decidable (RegWF m) := by
  unfold RegWF; infer_instance

theorem ids_mapInsert {m : Registry} {k : Nat} {v : NodeInfo}
    (hm : ∀ p ∈ m, (p : Nat × NodeInfo).2.nodeId = p.1) (hv : v.nodeId = k) :
    ∀ p ∈ mapInsert m k v, (p : Nat × NodeInfo).2.nodeId = p.1 := by
  intro p hp
  rcases mem_mapInsert hp with h | h
  · subst h; exact hv
  · exact hm p h

theorem RegWF_updateLastHeardTime {m : Registry} (hwf : RegWF m)
    (selfId nodeId now : Nat) :
    RegWF (updateLastHeardTime selfId m nodeId now) := by
  obtain ⟨hkeys, hids⟩ := hwf
  unfold updateLastHeardTime
  by_cases hself : nodeId = selfId
  · rw [if_pos hself]; exact ⟨hkeys, hids⟩
  · rw [if_neg hself]
    cases hfind : mapFind m nodeId with
    | some info =>
        have hinfo : info.nodeId = nodeId := hids _ (mapFind_some_mem hfind)
        exact ⟨WFkeys_mapInsert hkeys _ _, ids_mapInsert hids hinfo⟩
    | none =>
        exact ⟨WFkeys_mapInsert hkeys _ _, ids_mapInsert hids rfl⟩

theorem RegWF_updateNodePosition {m : Registry} (hwf : RegWF m)
    (selfId : Nat) (report : PositionReport) (now : Nat) :
    RegWF (updateNodePosition selfId m report now) := by
  obtain ⟨hkeys, hids⟩ := hwf
  unfold updateNodePosition
  by_cases hself : report.header.sourceNodeId = selfId
  · rw [if_pos hself]; exact ⟨hkeys, hids⟩
  · rw [if_neg hself]
    cases hfind : mapFind m report.header.sourceNodeId with
    | some info =>
        have hinfo : info.nodeId = report.header.sourceNodeId :=
          hids _ (mapFind_some_mem hfind)
        exact ⟨WFkeys_mapInsert hkeys _ _, ids_mapInsert hids hinfo⟩
    | none =>
        exact ⟨WFkeys_mapInsert hkeys _ _, ids_mapInsert hids rfl⟩

theorem pruneTimeouts_eq_filter_contains (m : Registry) (timeoutSec now : Nat) :
    pruneTimeouts m timeoutSec now =
      m.filter (fun p =>
        !(((m.filter (fun q =>
              decide (timeoutSec < elapsedSeconds now q.2.lastHeardTime))).map
            Prod.fst).contains p.1)) := by
  rw [pruneTimeouts, foldl_mapErase_eq_filter]

theorem RegWF_pruneTimeouts {m : Registry} (hwf : RegWF m) (timeoutSec now : Nat) :
    RegWF (pruneTimeouts m timeoutSec now) := by
  obtain ⟨hkeys, hids⟩ := hwf
  rw [pruneTimeouts_eq_filter_contains]
  constructor
  · exact ((List.filter_sublist m).map Prod.fst).nodup hkeys
  · intro p hp
    exact hids p (List.mem_of_mem_filter hp)

theorem getNodeList_filter_eq (m : Registry) :
    ∀ (i : Nat) (v : NodeInfo), RegWF m → mapFind m i = some v →
      (getNodeList m).filter (fun n => n.nodeId == i) = [v] := by
  induction m with
  | nil => intro i v _ hfind; simp [mapFind] at hfind
  | cons p rest ih =>
      intro i v hwf hfind
      obtain ⟨k, w⟩ := p
      obtain ⟨hkeys, hids⟩ := hwf
      rw [WFkeys, List.map_cons, List.nodup_cons] at hkeys
      obtain ⟨hknotin, hkeys'⟩ := hkeys
      have hrest : RegWF rest :=
        ⟨hkeys', fun q hq => hids q (List.mem_cons_of_mem _ hq)⟩
      have hw : w.nodeId = k := hids (k, w) (List.mem_cons_self _ _)
      unfold mapFind at hfind
      rw [getNodeList, List.map_cons, List.filter_cons]
      by_cases hk : i = k
      · rw [if_pos hk] at hfind
        injection hfind with hv
        subst hv
        subst hk
        have htail : (getNodeList rest).filter (fun n => n.nodeId == i) = [] := by
          rw [List.filter_eq_nil_iff]
          intro n hn
          obtain ⟨q, hq, rfl⟩ := List.mem_map.mp hn
          have hqid : q.2.nodeId = q.1 := hids q (List.mem_cons_of_mem _ hq)
          have hq1 : q.1 ≠ i := fun hqq =>
            hknotin (hqq ▸ List.mem_map.mpr ⟨q, hq, rfl⟩)
          simp [hqid, hq1]
        rw [getNodeList] at htail
        simp [hw, htail]
      · rw [if_neg hk] at hfind
        have htail := ih i v hrest hfind
        rw [getNodeList] at htail
        have hcond : ¬(w.nodeId == i) = true := by
          simp only [beq_iff_eq, hw]
          exact fun hh => hk hh.symm
        simp only [hcond, if_neg, Bool.false_eq_true, not_false_eq_true,
          if_false]
        exact htail

/-! ### Sequences of registry update calls

The receiver loop drives the registry through `updateLastHeardTime` and
`updateNodePosition` calls; `UpdateOp` records one such call together with
the `steady_clock::now()` value it read. -/

/-- One registry update call made by the receiver loop. -/
inductive UpdateOp
  | touch (nodeId now : Nat)
  | updatePos (report : PositionReport) (now : Nat)
deriving DecidableEq, Repr

/-- The peer id an update call is about. -/
def UpdateOp.targetId : UpdateOp → Nat
  | .touch i _ => i
  | .updatePos r _ => r.header.sourceNodeId

/-- The clock value read by an update call. -/
def UpdateOp.time : UpdateOp → Nat
  | .touch _ t => t
  | .updatePos _ t => t

/-- The position report an update call carries, if any. -/
def UpdateOp.report? : UpdateOp → Option PositionReport
  | .updatePos r _ => some r
  | .touch _ _ => none

/-- Execute one update call against the registry. -/
def applyUpdate (selfId : Nat) (m : Registry) : UpdateOp → Registry
  | .touch i t => updateLastHeardTime selfId m i t
  | .updatePos r t => updateNodePosition selfId m r t

/-- Execute a sequence of update calls in order. -/
def runUpdates (selfId : Nat) (ops : List UpdateOp) (m : Registry) : Registry :=
  ops.foldl (applyUpdate selfId) m

/-- The subsequence of calls that concern peer `i`. -/
def opsFor (i : Nat) (ops : List UpdateOp) : List UpdateOp :=
  ops.filter (fun op => op.targetId == i)

/-- The clock value of the most recent (= last, for per-peer strictly
increasing timestamps) call for peer `i`. -/
def lastTimeFor (i : Nat) (ops : List UpdateOp) : Option Nat :=
  ((opsFor i ops).map UpdateOp.time).getLast?

/-- The report of the most recent `updateNodePosition` call for peer `i`. -/
def lastReportFor (i : Nat) (ops : List UpdateOp) : Option PositionReport :=
  ((opsFor i ops).filterMap UpdateOp.report?).getLast?

/-- The registry entry the spec predicts for peer `i` after a call
sequence: last-heard at the time of the most recent call, position from the
most recent position report, or the constructor's default position if no
report arrived. -/
def specEntry (i : Nat) (ops : List UpdateOp) : NodeInfo :=
  { nodeId := i
  , lastPosition := (lastReportFor i ops).getD (initialPosition i)
  , lastHeardTime := (lastTimeFor i ops).getD 0 }

theorem opsFor_append (i : Nat) (ops₁ ops₂ : List UpdateOp) :
    opsFor i (ops₁ ++ ops₂) = opsFor i ops₁ ++ opsFor i ops₂ := by
  simp [opsFor]

theorem opsFor_singleton_eq (i : Nat) (op : UpdateOp) (h : op.targetId = i) :
    opsFor i [op] = [op] := by simp [opsFor, h]

theorem opsFor_singleton_ne (i : Nat) (op : UpdateOp) (h : op.targetId ≠ i) :
    opsFor i [op] = [] := by simp [opsFor, h]

theorem opsFor_append_ne (i : Nat) (ops : List UpdateOp) (op : UpdateOp)
    (h : op.targetId ≠ i) : opsFor i (ops ++ [op]) = opsFor i ops := by
  rw [opsFor_append, opsFor_singleton_ne i op h, List.append_nil]

theorem specEntry_append_ne (i : Nat) (ops : List UpdateOp) (op : UpdateOp)
    (h : op.targetId ≠ i) : specEntry i (ops ++ [op]) = specEntry i ops := by
  rw [specEntry, specEntry, lastTimeFor, lastTimeFor, lastReportFor,
    lastReportFor, opsFor_append_ne i ops op h]

theorem lastTimeFor_append_target (i : Nat) (ops : List UpdateOp)
    (op : UpdateOp) (h : op.targetId = i) :
    lastTimeFor i (ops ++ [op]) = some op.time := by
  rw [lastTimeFor, opsFor_append, opsFor_singleton_eq i op h, List.map_append]
  simp

theorem lastReportFor_append_touch (i : Nat) (ops : List UpdateOp) (j t : Nat)
    (h : (UpdateOp.touch j t).targetId = i) :
    lastReportFor i (ops ++ [.touch j t]) = lastReportFor i ops := by
  rw [lastReportFor, opsFor_append, opsFor_singleton_eq _ _ h,
    List.filterMap_append, lastReportFor]
  simp [UpdateOp.report?]

theorem lastReportFor_append_updatePos (i : Nat) (ops : List UpdateOp)
    (r : PositionReport) (t : Nat) (h : (UpdateOp.updatePos r t).targetId = i) :
    lastReportFor i (ops ++ [.updatePos r t]) = some r := by
  rw [lastReportFor, opsFor_append, opsFor_singleton_eq _ _ h,
    List.filterMap_append]
  simp [UpdateOp.report?]

theorem specEntry_append_touch (i : Nat) (ops : List UpdateOp) (j t : Nat)
    (h : (UpdateOp.touch j t).targetId = i) :
    specEntry i (ops ++ [.touch j t]) =
      { nodeId := i
      , lastPosition := (lastReportFor i ops).getD (initialPosition i)
      , lastHeardTime := t } := by
  rw [specEntry, lastTimeFor_append_target _ _ _ h,
    lastReportFor_append_touch _ _ _ _ h]
  rfl

theorem specEntry_append_updatePos (i : Nat) (ops : List UpdateOp)
    (r : PositionReport) (t : Nat) (h : (UpdateOp.updatePos r t).targetId = i) :
    specEntry i (ops ++ [.updatePos r t]) =
      { nodeId := i, lastPosition := r, lastHeardTime := t } := by
  rw [specEntry, lastTimeFor_append_target _ _ _ h,
    lastReportFor_append_updatePos _ _ _ _ h]
  rfl

theorem mapFind_applyUpdate_ne (selfId : Nat) (m : Registry) (op : UpdateOp)
    (i : Nat) (h : op.targetId ≠ i) :
    mapFind (applyUpdate selfId m op) i = mapFind m i := by
  cases op with
  | touch j t =>
      have hj : j ≠ i := h
      show mapFind (updateLastHeardTime selfId m j t) i = mapFind m i
      unfold updateLastHeardTime
      by_cases hself : j = selfId
      · rw [if_pos hself]
      · rw [if_neg hself]
        cases hfind : mapFind m j with
        | some info => exact mapFind_mapInsert_ne m j _ i fun hh => hj hh.symm
        | none => exact mapFind_mapInsert_ne m j _ i fun hh => hj hh.symm
  | updatePos r t =>
      have hr : r.header.sourceNodeId ≠ i := h
      show mapFind (updateNodePosition selfId m r t) i = mapFind m i
      unfold updateNodePosition
      by_cases hself : r.header.sourceNodeId = selfId
      · rw [if_pos hself]
      · rw [if_neg hself]
        cases hfind : mapFind m r.header.sourceNodeId with
        | some info => exact mapFind_mapInsert_ne m _ _ i fun hh => hr hh.symm
        | none => exact mapFind_mapInsert_ne m _ _ i fun hh => hr hh.symm

/-- The registry entry for a peer after any run of `touch`/`updatePosition`
calls starting from the empty registry: present exactly when some call
concerned that peer, and in that case equal to the spec-predicted entry. -/
theorem mapFind_runUpdates (selfId : Nat) (ops : List UpdateOp) (i : Nat)
    (hne : i ≠ selfId) :
    mapFind (runUpdates selfId ops []) i =
      if opsFor i ops = [] then none else some (specEntry i ops) := by
  induction ops using List.reverseRecOn with
  | nil => simp [runUpdates, mapFind, opsFor]
  | append_singleton ops op ih =>
      rw [runUpdates, List.foldl_append, List.foldl_cons, List.foldl_nil]
      rw [runUpdates] at ih
      by_cases hop : op.targetId = i
      · have hne2 : opsFor i (ops ++ [op]) ≠ [] := by
          rw [opsFor_append, opsFor_singleton_eq i op hop]
          simp
        rw [if_neg hne2]
        cases op with
        | touch j t =>
            have hj : j = i := hop
            subst hj
            rw [specEntry_append_touch _ _ _ _ hop]
            show mapFind
              (updateLastHeardTime selfId (List.foldl (applyUpdate selfId) [] ops) j t) j = _
            unfold updateLastHeardTime
            rw [if_neg hne]
            by_cases h0 : opsFor j ops = []
            · rw [if_pos h0] at ih
              rw [ih, mapFind_mapInsert_self]
              rw [lastReportFor, h0]
              rfl
            · rw [if_neg h0] at ih
              rw [ih, mapFind_mapInsert_self]
              rfl
        | updatePos r t =>
            have hr : r.header.sourceNodeId = i := hop
            rw [specEntry_append_updatePos _ _ _ _ hop]
            show mapFind
              (updateNodePosition selfId (List.foldl (applyUpdate selfId) [] ops) r t) i = _
            unfold updateNodePosition
            rw [hr, if_neg hne]
            by_cases h0 : opsFor i ops = []
            · rw [if_pos h0] at ih
              rw [ih, mapFind_mapInsert_self]
              rfl
            · rw [if_neg h0] at ih
              rw [ih, mapFind_mapInsert_self]
              rfl
      · rw [opsFor_append_ne i ops op hop, specEntry_append_ne i ops op hop,
          mapFind_applyUpdate_ne selfId _ op i hop]
        exact ih

theorem RegWF_nil : RegWF [] := by
  constructor
  · simp [WFkeys]
  · simp

theorem RegWF_applyUpdate {m : Registry} (hwf : RegWF m) (selfId : Nat)
    (op : UpdateOp) : RegWF (applyUpdate selfId m op) := by
  cases op with
  | touch j t => exact RegWF_updateLastHeardTime hwf selfId j t
  | updatePos r t => exact RegWF_updateNodePosition hwf selfId r t

theorem RegWF_runUpdates {m : Registry} (hwf : RegWF m) (selfId : Nat)
    (ops : List UpdateOp) : RegWF (runUpdates selfId ops m) := by
  induction ops generalizing m with
  | nil => exact hwf
  | cons op ops ih => exact ih (RegWF_applyUpdate hwf selfId op)

/-! ### Full registry operation sequences

For the monotonicity invariant the relevant operation set is everything the
two loops run against `m_nodeMap`: touch, position update, prune, and the
snapshot copy (`getNodeList`, which does not mutate the map). -/

/-- One call against the registry, with the `steady_clock::now()` value it
reads (the snapshot copy reads none). -/
inductive RegistryOp
  | touch (nodeId now : Nat)
  | updatePos (report : PositionReport) (now : Nat)
  | prune (timeoutSec now : Nat)
  | snapshot
deriving DecidableEq, Repr

/-- Execute one registry call.  `snapshot` copies the map out
(`getNodeList`) and leaves it unchanged. -/
def applyRegistryOp (selfId : Nat) (m : Registry) : RegistryOp → Registry
  | .touch i t => updateLastHeardTime selfId m i t
  | .updatePos r t => updateNodePosition selfId m r t
  | .prune timeoutSec t => pruneTimeouts m timeoutSec t
  | .snapshot => m

/-- Execute a sequence of registry calls in order. -/
def runRegistryOps (selfId : Nat) (ops : List RegistryOp) (m : Registry) :
    Registry :=
  ops.foldl (applyRegistryOp selfId) m

/-- The monotonic-clock guarantee for one call relative to tick `t`: the
`now` the call reads is at or after `t`.  `steady_clock` provides this for
every call made after `t` was read. -/
def RegistryOp.atOrAfter (t : Nat) : RegistryOp → Bool
  | .touch _ now => decide (t ≤ now)
  | .updatePos _ now => decide (t ≤ now)
  | .prune _ now => decide (t ≤ now)
  | .snapshot => true

/-- Every entry currently stored under key `i` has `lastHeardTime ≥ c`. -/
def KeyBound (c i : Nat) (m : Registry) : Prop :=
  ∀ p ∈ m, (p : Nat × NodeInfo).1 = i → c ≤ p.2.lastHeardTime

theorem KeyBound_applyRegistryOp {c i : Nat} {m : Registry} (selfId : Nat)
    {op : RegistryOp} (hb : KeyBound c i m) (hop : op.atOrAfter c = true) :
    KeyBound c i (applyRegistryOp selfId m op) := by
  cases op with
  | touch j t =>
      have ht : c ≤ t := by simpa [RegistryOp.atOrAfter] using hop
      intro p hp hpi
      revert hp
      show p ∈ updateLastHeardTime selfId m j t → _
      unfold updateLastHeardTime
      by_cases hself : j = selfId
      · rw [if_pos hself]; exact fun hp => hb p hp hpi
      · rw [if_neg hself]
        cases hfind : mapFind m j with
        | some info =>
            intro hp
            rcases mem_mapInsert hp with h | h
            · subst h; exact ht
            · exact hb p h hpi
        | none =>
            intro hp
            rcases mem_mapInsert hp with h | h
            · subst h; exact ht
            · exact hb p h hpi
  | updatePos r t =>
      have ht : c ≤ t := by simpa [RegistryOp.atOrAfter] using hop
      intro p hp hpi
      revert hp
      show p ∈ updateNodePosition selfId m r t → _
      unfold updateNodePosition
      by_cases hself : r.header.sourceNodeId = selfId
      · rw [if_pos hself]; exact fun hp => hb p hp hpi
      · rw [if_neg hself]
        cases hfind : mapFind m r.header.sourceNodeId with
        | some info =>
            intro hp
            rcases mem_mapInsert hp with h | h
            · subst h; exact ht
            · exact hb p h hpi
        | none =>
            intro hp
            rcases mem_mapInsert hp with h | h
            · subst h; exact ht
            · exact hb p h hpi
  | prune timeoutSec t =>
      intro p hp hpi
      rw [show applyRegistryOp selfId m (.prune timeoutSec t) =
            pruneTimeouts m timeoutSec t from rfl,
        pruneTimeouts_eq_filter_contains] at hp
      exact hb p (List.mem_of_mem_filter hp) hpi
  | snapshot => exact hb

theorem KeyBound_runRegistryOps {c i : Nat} {m : Registry} (selfId : Nat)
    {ops : List RegistryOp} (hb : KeyBound c i m)
    (hops : ∀ op ∈ ops, op.atOrAfter c = true) :
    KeyBound c i (runRegistryOps selfId ops m) := by
  induction ops generalizing m with
  | nil => exact hb
  | cons op ops ih =>
      exact ih (KeyBound_applyRegistryOp selfId hb (hops op (List.mem_cons_self _ _)))
        (fun o ho => hops o (List.mem_cons_of_mem _ ho))

/-! ### Concrete sample values used by the witness theorems -/

/-- A one-entry registry: peer 2, heard at tick 3, no position yet. -/
def sampleRegistry : Registry := [(2, mkNodeInfo 2 3)]

/-- A position report claiming to come from node 1. -/
def sampleSelfReport : PositionReport :=
  { header := { messageType := POSITION_REPORT_TYPE, sourceNodeId := 1 }
  , latitude := 5, longitude := 6, altitude := 7 }

/-- A 9-byte packet: a heartbeat header (type 2, source id 2, little-endian)
followed by one stray byte — a recognized type whose total length (9) is
not the expected `sizeof(HeartbeatMessage)` (8). -/
def oversizedHeartbeat : List Nat := [2, 0, 0, 0, 2, 0, 0, 0, 0]

/-- A registry whose single entry was heard at tick 0. -/
def staleEntry : Registry := [(7, mkNodeInfo 7 0)]

/-! ### The claims -/

/-- C4: for every registry state, `updateNodePosition` with a report whose
source id is the local node's own id, and `updateLastHeardTime` with the
local node's own id, are no-ops: they create no entry and mutate no entry,
leaving the registry exactly as it was. -/
theorem self_id_noop (selfId : Nat) (m : Registry) (report : PositionReport)
    (nodeId now now' : Nat)
    (hrep : report.header.sourceNodeId = selfId) (hid : nodeId = selfId) :
    updateNodePosition selfId m report now = m ∧
      updateLastHeardTime selfId m nodeId now' = m := by
  constructor
  · rw [updateNodePosition, if_pos hrep]
  · rw [updateLastHeardTime, if_pos hid]

theorem self_id_noop_witness :
    sampleSelfReport.header.sourceNodeId = 1 ∧ (1 : Nat) = 1 ∧
      updateNodePosition 1 sampleRegistry sampleSelfReport 10 = sampleRegistry ∧
      updateLastHeardTime 1 sampleRegistry 1 11 = sampleRegistry :=
  ⟨by decide, rfl,
    self_id_noop 1 sampleRegistry sampleSelfReport 1 10 11 (by decide) rfl⟩

/-- C5: a received packet shorter than `sizeof(MessageHeader)` is discarded
by the receiver loop before any decoding or registry call, so the registry
after processing it equals the registry before. -/
theorem short_packet_rejected (selfId : Nat) (m : Registry) (data : List Nat)
    (nowTouch nowPos : Nat) (h : data.length < sizeofMessageHeader) :
    processPacket selfId m data nowTouch nowPos = m := by
  rw [processPacket, if_pos h]

theorem short_packet_rejected_witness :
    ([1, 2, 3] : List Nat).length < sizeofMessageHeader ∧
      processPacket 1 sampleRegistry [1, 2, 3] 10 11 = sampleRegistry :=
  ⟨by decide, short_packet_rejected 1 sampleRegistry [1, 2, 3] 10 11 (by decide)⟩

/-- C1 counterexample: a packet of a recognized type (heartbeat) with the
wrong total size, from a non-self source, long enough to carry a header,
still mutates the registry: starting from the empty registry, processing it
leaves a new entry for the sender, because `updateLastHeardTime` runs for
every well-headed non-self packet before the per-type size check.  The
claim's "rejected without any registry mutation" is therefore false. -/
theorem wrong_size_still_touches_counterexample :
    (sizeofMessageHeader ≤ oversizedHeartbeat.length
      ∧ decodeU32At oversizedHeartbeat 4 ≠ 1
      ∧ decodeU32At oversizedHeartbeat 0 = HEARTBEAT_TYPE
      ∧ oversizedHeartbeat.length ≠ sizeofHeartbeatMessage)
    ∧ processPacket 1 [] oversizedHeartbeat 10 11 ≠ [] := by decide

/-- C1 (amended): a received packet of recognized type but wrong total size
is rejected with no registry mutation beyond the unconditional touch: the
registry afterwards equals `updateLastHeardTime` applied to the prior
state for the packet's source id — in particular, no position is stored and
no other entry changes. -/
theorem wrong_size_only_touches (selfId : Nat) (m : Registry) (data : List Nat)
    (nowTouch nowPos : Nat)
    (hlen : sizeofMessageHeader ≤ data.length)
    (hsrc : decodeU32At data 4 ≠ selfId)
    (htype : decodeU32At data 0 = POSITION_REPORT_TYPE ∨
      decodeU32At data 0 = HEARTBEAT_TYPE ∨
      decodeU32At data 0 = TEXT_MESSAGE_TYPE)
    (hsize : data.length ≠ expectedSize (decodeU32At data 0)) :
    processPacket selfId m data nowTouch nowPos =
      updateLastHeardTime selfId m (decodeU32At data 4) nowTouch := by
  simp only [processPacket]
  rw [if_neg (not_lt.mpr hlen), if_neg hsrc]
  rcases htype with h | h | h
  · rw [h] at hsize
    rw [show expectedSize POSITION_REPORT_TYPE = sizeofPositionReport from rfl]
      at hsize
    rw [if_pos h, if_neg hsize]
  · have h1 : decodeU32At data 0 ≠ POSITION_REPORT_TYPE := by rw [h]; decide
    rw [if_neg h1, if_pos h]
  · have h1 : decodeU32At data 0 ≠ POSITION_REPORT_TYPE := by rw [h]; decide
    have h2 : decodeU32At data 0 ≠ HEARTBEAT_TYPE := by rw [h]; decide
    rw [if_neg h1, if_neg h2, if_pos h]

theorem wrong_size_only_touches_witness :
    (sizeofMessageHeader ≤ oversizedHeartbeat.length
      ∧ decodeU32At oversizedHeartbeat 4 ≠ 1
      ∧ (decodeU32At oversizedHeartbeat 0 = POSITION_REPORT_TYPE ∨
          decodeU32At oversizedHeartbeat 0 = HEARTBEAT_TYPE ∨
          decodeU32At oversizedHeartbeat 0 = TEXT_MESSAGE_TYPE)
      ∧ oversizedHeartbeat.length ≠ expectedSize (decodeU32At oversizedHeartbeat 0))
    ∧ processPacket 1 sampleRegistry oversizedHeartbeat 10 11 =
        updateLastHeardTime 1 sampleRegistry (decodeU32At oversizedHeartbeat 4) 10 :=
  ⟨⟨by decide, by decide, Or.inr (Or.inl (by decide)), by decide⟩,
    wrong_size_only_touches 1 sampleRegistry oversizedHeartbeat 10 11
      (by decide) (by decide) (Or.inr (Or.inl (by decide))) (by decide)⟩

/-- C2 counterexample: an entry last heard at tick 0, pruned with timeout
T = 0 s at now = 0.5 s.  The entry's age (5·10^8 ns) exceeds T (0 s = 0
ticks), so the claim says it must be removed — yet `pruneTimeouts` keeps
it, because the code compares `duration_cast<seconds>` of the age (= 0
whole seconds) against T. -/
theorem prune_age_exceeds_counterexample :
    0 * nsPerSec < 500000000 - (mkNodeInfo 7 0).lastHeardTime
    ∧ (7, mkNodeInfo 7 0) ∈ pruneTimeouts staleEntry 0 500000000 := by decide

/-- C2 (amended): `pruneTimeouts(T, now)` removes exactly the entries whose
age truncated to whole seconds (`duration_cast<seconds>(now - lastHeardAt)`)
exceeds T, and the result is literally the sublist of the remaining
entries — every kept entry is byte-for-byte unchanged. -/
theorem prune_removes_exactly (m : Registry) (timeoutSec now : Nat)
    (hwf : WFkeys m) :
    pruneTimeouts m timeoutSec now =
      m.filter (fun p =>
        decide (elapsedSeconds now p.2.lastHeardTime ≤ timeoutSec)) := by
  rw [pruneTimeouts_eq_filter_contains]
  apply List.filter_congr
  intro p hp
  by_cases hst : timeoutSec < elapsedSeconds now p.2.lastHeardTime
  · have hin : p.1 ∈ (m.filter (fun q =>
        decide (timeoutSec < elapsedSeconds now q.2.lastHeardTime))).map Prod.fst :=
      List.mem_map.mpr ⟨p, List.mem_filter.mpr ⟨hp, by simpa using hst⟩, rfl⟩
    simp [hin, hst, Nat.not_le.mpr hst]
  · have hnotin : p.1 ∉ (m.filter (fun q =>
        decide (timeoutSec < elapsedSeconds now q.2.lastHeardTime))).map Prod.fst := by
      intro hin
      obtain ⟨q, hq, hq1⟩ := List.mem_map.mp hin
      have hqm := List.mem_of_mem_filter hq
      have hqp : q = p := WFkeys_eq_of_mem hwf hqm hp hq1
      subst hqp
      have := List.mem_filter.mp hq
      exact hst (by simpa using this.2)
    simp [hnotin, Nat.not_lt.mp hst]

/-- A two-entry registry: peer 7 heard at tick 0, peer 8 heard at tick
2·10^10 (= 20 s). -/
def mixedRegistry : Registry := [(7, mkNodeInfo 7 0), (8, mkNodeInfo 8 20000000000)]

theorem prune_removes_exactly_witness :
    WFkeys mixedRegistry ∧
      pruneTimeouts mixedRegistry 5 20000000000 =
        mixedRegistry.filter (fun p =>
          decide (elapsedSeconds 20000000000 p.2.lastHeardTime ≤ 5)) :=
  ⟨by decide, prune_removes_exactly mixedRegistry 5 20000000000 (by decide)⟩

/-- C3: after any sequence of `touch`/`updatePosition` calls with strictly
increasing timestamps per peer id, starting from the empty registry, the
snapshot contains exactly one entry for each non-self peer id that appeared
in the sequence; its `lastHeardAt` is the timestamp of the most recent call
for that id and its coordinates come from the most recent position report
for that id (all zero — the unknown-position sentinel — if none arrived). -/
theorem snapshot_reflects_latest (selfId i : Nat) (ops : List UpdateOp)
    (hinc : ∀ j, List.Chain' (· < ·) ((opsFor j ops).map UpdateOp.time))
    (hne : i ≠ selfId)
    (happ : opsFor i ops ≠ []) :
    ∃ info,
      (getNodeList (runUpdates selfId ops [])).filter (fun n => n.nodeId == i)
          = [info]
        ∧ some info.lastHeardTime = lastTimeFor i ops
        ∧ info.lastPosition.latitude
            = ((lastReportFor i ops).map PositionReport.latitude).getD 0
        ∧ info.lastPosition.longitude
            = ((lastReportFor i ops).map PositionReport.longitude).getD 0
        ∧ info.lastPosition.altitude
            = ((lastReportFor i ops).map PositionReport.altitude).getD 0 := by
  have hfind := mapFind_runUpdates selfId ops i hne
  rw [if_neg happ] at hfind
  have htime : lastTimeFor i ops ≠ none := by
    rw [lastTimeFor]
    intro hcon
    rw [List.getLast?_eq_none_iff, List.map_eq_nil_iff] at hcon
    exact happ hcon
  refine ⟨specEntry i ops,
    getNodeList_filter_eq _ i _ (RegWF_runUpdates RegWF_nil selfId ops) hfind,
    ?_, ?_, ?_, ?_⟩
  · cases hl : lastTimeFor i ops with
    | none => exact absurd hl htime
    | some t => simp [specEntry, hl]
  · cases hr : lastReportFor i ops with
    | none => simp [specEntry, hr, initialPosition]
    | some rep => simp [specEntry, hr]
  · cases hr : lastReportFor i ops with
    | none => simp [specEntry, hr, initialPosition]
    | some rep => simp [specEntry, hr]
  · cases hr : lastReportFor i ops with
    | none => simp [specEntry, hr, initialPosition]
    | some rep => simp [specEntry, hr]

/-- A sample call sequence: peer 2 is touched at tick 5, then reports a
position at tick 7. -/
def sampleOps : List UpdateOp :=
  [.touch 2 5,
   .updatePos { header := { messageType := POSITION_REPORT_TYPE, sourceNodeId := 2 }
              , latitude := 10, longitude := 20, altitude := 30 } 7]

theorem snapshot_reflects_latest_witness :
    (∀ j, List.Chain' (· < ·) ((opsFor j sampleOps).map UpdateOp.time))
    ∧ (2 : Nat) ≠ 1
    ∧ opsFor 2 sampleOps ≠ []
    ∧ ∃ info,
        (getNodeList (runUpdates 1 sampleOps [])).filter (fun n => n.nodeId == 2)
            = [info]
          ∧ some info.lastHeardTime = lastTimeFor 2 sampleOps
          ∧ info.lastPosition.latitude
              = ((lastReportFor 2 sampleOps).map PositionReport.latitude).getD 0
          ∧ info.lastPosition.longitude
              = ((lastReportFor 2 sampleOps).map PositionReport.longitude).getD 0
          ∧ info.lastPosition.altitude
              = ((lastReportFor 2 sampleOps).map PositionReport.altitude).getD 0 := by
  have hinc : ∀ j, List.Chain' (· < ·) ((opsFor j sampleOps).map UpdateOp.time) := by
    intro j
    by_cases hj : j = 2
    · subst hj
      have hev : (opsFor 2 sampleOps).map UpdateOp.time = [5, 7] := by decide
      rw [hev]
      exact List.chain'_pair.mpr (by decide)
    · have hb : (2 == j) = false := by
        rw [beq_eq_false_iff_ne]; exact Ne.symm hj
      have h0 : opsFor j sampleOps = [] := by
        simp [sampleOps, opsFor, UpdateOp.targetId, hb]
      rw [h0]
      simp
  exact ⟨hinc, by decide, by decide,
    snapshot_reflects_latest 1 2 sampleOps hinc (by decide) (by decide)⟩

/-- C6: across any sequence of registry operations (touch, position update,
prune, snapshot) whose clock reads are at or after the tick at which an
entry was last updated — the guarantee `steady_clock` gives every later
call — the entry's `lastHeardAt` never decreases: if its key is still
present afterwards, the stored time is at least the original one. -/
theorem lastHeard_monotone (selfId : Nat) (m : Registry) (ops : List RegistryOp)
    (i : Nat) (info info' : NodeInfo)
    (hwf : WFkeys m)
    (hfind : mapFind m i = some info)
    (hclock : ∀ op ∈ ops, op.atOrAfter info.lastHeardTime = true)
    (hfind' : mapFind (runRegistryOps selfId ops m) i = some info') :
    info.lastHeardTime ≤ info'.lastHeardTime := by
  have hb : KeyBound info.lastHeardTime i m := by
    intro p hp hpi
    have hmem : (i, info) ∈ m := mapFind_some_mem hfind
    have hpeq : p = (i, info) := WFkeys_eq_of_mem hwf hp hmem hpi
    rw [hpeq]
  exact KeyBound_runRegistryOps selfId hb hclock _ (mapFind_some_mem hfind') rfl

/-- A sample operation sequence: touch peer 2 at tick 10, prune with a 0 s
timeout at tick 12, then snapshot. -/
def sampleFullOps : List RegistryOp := [.touch 2 10, .prune 0 12, .snapshot]

theorem lastHeard_monotone_witness :
    WFkeys sampleRegistry
    ∧ mapFind sampleRegistry 2 = some (mkNodeInfo 2 3)
    ∧ (∀ op ∈ sampleFullOps, op.atOrAfter (mkNodeInfo 2 3).lastHeardTime = true)
    ∧ mapFind (runRegistryOps 1 sampleFullOps sampleRegistry) 2
        = some (mkNodeInfo 2 10)
    ∧ (mkNodeInfo 2 3).lastHeardTime ≤ (mkNodeInfo 2 10).lastHeardTime :=
  ⟨by decide, by decide, by decide, by decide,
    lastHeard_monotone 1 sampleRegistry sampleFullOps 2 (mkNodeInfo 2 3)
      (mkNodeInfo 2 10) (by decide) (by decide) (by decide) (by decide)⟩

/-- C7: `NetworkManager::receive` returns the empty optional both when
`recvfrom` reports `WSAETIMEDOUT` (nothing arrived within the configured
timeout) and when it reports `WSAECONNRESET` — the same outcome as "no
packet this call".  The function's return type has no error alternative at
all, so neither case is distinguishable from no data. -/
theorem receive_timeout_and_reset_no_data (initialized recvSocketValid : Bool) :
    NetworkManager.receive initialized recvSocketValid
        (.sockError WSAETIMEDOUT) = none
    ∧ NetworkManager.receive initialized recvSocketValid
        (.sockError WSAECONNRESET) = none := by
  constructor <;> cases initialized <;> cases recvSocketValid <;> rfl

/-- C9: `sendBroadcast` returns false on every transport-level send failure
— `sendto` reporting `SOCKET_ERROR`, or the transport being uninitialized /
without a valid send socket — and returns true exactly when `sendto`
succeeded on an initialized transport.  It is a total function of the
outcome (every case returns a boolean; no path throws). -/
theorem sendBroadcast_false_on_failure (initialized sendSocketValid : Bool)
    (size : Nat) (outcome : SendOutcome) :
    sendBroadcast initialized sendSocketValid size outcome = true ↔
      initialized = true ∧ sendSocketValid = true ∧
        ∃ n, outcome = SendOutcome.sent n := by
  cases initialized <;> cases sendSocketValid <;> cases outcome <;>
    simp [sendBroadcast]

/-- C10: a partial send — `sendto` succeeds but reports fewer bytes sent
than requested — still makes `sendBroadcast` return true: at the public
interface a truncated send is reported as success (the shortfall only
triggers a logged warning). -/
theorem sendBroadcast_partial_send_true (size n : Nat) (h : n < size) :
    sendBroadcast true true size (.sent n) = true := rfl

theorem sendBroadcast_partial_send_true_witness :
    (3 : Nat) < 10 ∧ sendBroadcast true true 10 (.sent 3) = true :=
  ⟨by decide, sendBroadcast_partial_send_true 10 3 (by decide)⟩

/-! ### The position-report round trip -/

theorem encodeHeader_length (h : MessageHeader) : (encodeHeader h).length = 8 := by
  simp [encodeHeader, natToBytesLE_length]

theorem encodePositionReport_length (r : PositionReport) :
    (encodePositionReport r).length = sizeofPositionReport := by
  simp [encodePositionReport, encodeHeader, natToBytesLE_length,
    sizeofPositionReport]

theorem decodeU64At_encode_lat (r : PositionReport) :
    decodeU64At (encodePositionReport r) 8 = r.latitude % 2 ^ 64 := by
  rw [decodeU64At, encodePositionReport, List.append_assoc, List.append_assoc,
    List.drop_left' (encodeHeader_length r.header),
    List.take_left' (natToBytesLE_length 8 r.latitude),
    bytesToNatLE_natToBytesLE,
    show (256 : Nat) ^ 8 = 2 ^ 64 by norm_num]

theorem decodeU64At_encode_lon (r : PositionReport) :
    decodeU64At (encodePositionReport r) 16 = r.longitude % 2 ^ 64 := by
  have hpre : (encodeHeader r.header ++ natToBytesLE 8 r.latitude).length = 16 := by
    rw [List.length_append, encodeHeader_length, natToBytesLE_length]
  rw [decodeU64At, encodePositionReport, List.append_assoc,
    List.drop_left' hpre,
    List.take_left' (natToBytesLE_length 8 r.longitude),
    bytesToNatLE_natToBytesLE,
    show (256 : Nat) ^ 8 = 2 ^ 64 by norm_num]

theorem decodeU64At_encode_alt (r : PositionReport) :
    decodeU64At (encodePositionReport r) 24 = r.altitude % 2 ^ 64 := by
  have hpre : (encodeHeader r.header ++ natToBytesLE 8 r.latitude ++
      natToBytesLE 8 r.longitude).length = 24 := by
    rw [List.length_append, List.length_append, encodeHeader_length,
      natToBytesLE_length, natToBytesLE_length]
  have htake : (natToBytesLE 8 r.altitude).take 8 = natToBytesLE 8 r.altitude := by
    apply List.take_of_length_le
    rw [natToBytesLE_length]
  rw [decodeU64At, encodePositionReport,
    List.drop_left' hpre, htake,
    bytesToNatLE_natToBytesLE,
    show (256 : Nat) ^ 8 = 2 ^ 64 by norm_num]

/-- C8: for every position report, sending its raw struct bytes and running
the receiver's decode path (header-size check, exact-size check, byte copy)
on them reproduces latitude, longitude and altitude bit-identically: the
decode of the encode is the identity on the three coordinate bit
patterns.  The hypotheses say the stored patterns are 64-bit values, which
every `double` satisfies. -/
theorem positionReport_roundtrip (r : PositionReport)
    (hlat : r.latitude < 2 ^ 64) (hlon : r.longitude < 2 ^ 64)
    (halt : r.altitude < 2 ^ 64) :
    ∃ r', receiverDecodePositionReport (encodePositionReport r) = some r'
      ∧ r'.latitude = r.latitude ∧ r'.longitude = r.longitude
      ∧ r'.altitude = r.altitude := by
  refine ⟨decodePositionReport (encodePositionReport r), ?_, ?_, ?_, ?_⟩
  · rw [receiverDecodePositionReport, encodePositionReport_length]
    rfl
  · show decodeU64At (encodePositionReport r) 8 = r.latitude
    rw [decodeU64At_encode_lat, Nat.mod_eq_of_lt hlat]
  · show decodeU64At (encodePositionReport r) 16 = r.longitude
    rw [decodeU64At_encode_lon, Nat.mod_eq_of_lt hlon]
  · show decodeU64At (encodePositionReport r) 24 = r.altitude
    rw [decodeU64At_encode_alt, Nat.mod_eq_of_lt halt]

/-- A position report with arbitrary-looking 64-bit coordinate patterns
(the patterns of three distinct doubles) from node 9. -/
def samplePositionReport : PositionReport :=
  { header := { messageType := POSITION_REPORT_TYPE, sourceNodeId := 9 }
  , latitude := 4632251126509206040
  , longitude := 13861240194024677366
  , altitude := 4681608292808949760 }

theorem positionReport_roundtrip_witness :
    samplePositionReport.latitude < 2 ^ 64
    ∧ samplePositionReport.longitude < 2 ^ 64
    ∧ samplePositionReport.altitude < 2 ^ 64
    ∧ ∃ r', receiverDecodePositionReport
          (encodePositionReport samplePositionReport) = some r'
        ∧ r'.latitude = samplePositionReport.latitude
        ∧ r'.longitude = samplePositionReport.longitude
        ∧ r'.altitude = samplePositionReport.altitude :=
  ⟨by decide, by decide, by decide,
    positionReport_roundtrip samplePositionReport (by decide) (by decide)
      (by decide)⟩

end BasicTDL
